import Mathlib

/-!
Verification of the UK energy dashboard's data-freshness subsystem.

The development embeds, as executable Lean definitions, the parts of the
repository that carry the specified invariants:

* the batched upsert writer shared by the three ingestion pipelines
  (`src/data_update.py`, `update_and_upload_*`),
* the paginated range fetcher (`src/data/loaders.py`, `_fetch_all_pages`),
* the date-bounds resolver (`src/data/loaders.py`, `fetch_date_bounds`),
* the carbon / weather / demand normalization steps,
* the background-update coordinator (`src/app.py`, `_run_data_updates`
  and the once-per-day scheduler gate),
* the memoization key used by the cached range-fetch functions.

Rows live in list-shaped tables; an upsert keyed by the `(datetime,
region_id)` primary key either overwrites the existing row in place or
appends a fresh row at the end, matching upsert-by-primary-key semantics
of the backing store.
-/

namespace UkEnergy

/-! ## Generic keyed store and upsert (`supabase.table(t).upsert(batch)`) -/

/-- Does the table contain a row with primary key `k`? -/
def hasKey {α κ : Type} [DecidableEq κ] (key : α → κ) (s : List α) (k : κ) : Bool :=
  s.any (fun x => key x = k)

/-- Overwrite every row carrying `r`'s primary key with `r`. -/
def replaceKey {α κ : Type} [DecidableEq κ] (key : α → κ) (s : List α) (r : α) : List α :=
  s.map (fun x => if key x = key r then r else x)

/-- Upsert one row: overwrite on key conflict, append otherwise. -/
def upsertRow {α κ : Type} [DecidableEq κ] (key : α → κ) (s : List α) (r : α) : List α :=
  if hasKey key s (key r) then replaceKey key s r else s ++ [r]

/-- Upsert a batch of rows left to right. -/
def upsertRows {α κ : Type} [DecidableEq κ] (key : α → κ) (s : List α) (rs : List α) : List α :=
  rs.foldl (upsertRow key) s

/-- The last row of `rs` whose primary key is `k`, if any
(the value an upsert of `rs` leaves under key `k`). -/
def lastWith {α κ : Type} [DecidableEq κ] (key : α → κ) : List α → κ → Option α
  | [], _ => none
  | r :: rest, k =>
    match lastWith key rest k with
    | some x => some x
    | none => if key r = k then some r else none

/-- Replace a row by the last batch row carrying the same key (if any). -/
def subst {α κ : Type} [DecidableEq κ] (key : α → κ) (rs : List α) (x : α) : α :=
  (lastWith key rs (key x)).getD x

/-- The rows a batch upsert appends to the table: one per batch key that is
absent from the table, in first-occurrence order, each carrying the last
value written for that key. -/
def fresh {α κ : Type} [DecidableEq κ] (key : α → κ) (s : List α) : List α → List α
  | [] => []
  | r :: rest =>
    if hasKey key s (key r) then fresh key s rest
    else subst key rest r :: fresh key (s ++ [r]) rest

/-! ## Batched upload loop (`for i in range(0, len(records), batch_size)`) -/

/-- Substring test used to recognize duplicate-key messages. -/
def listStartsWith {α : Type} [DecidableEq α] : List α → List α → Bool
  | _, [] => true
  | [], _ :: _ => false
  | a :: l, b :: p => a = b && listStartsWith l p

/-- Does `l` contain `sub` as a contiguous run? -/
def listHasSub {α : Type} [DecidableEq α] : List α → List α → Bool
  | l, sub =>
    match l with
    | [] => sub.isEmpty
    | _ :: t => listStartsWith l sub || listHasSub t sub

/-- `pat in s` on Python strings. -/
def strContains (s pat : String) : Bool :=
  listHasSub s.toList pat.toList

/-- ASCII lower-casing of one character (`str.lower` on the identifiers
in play, which are ASCII). -/
def pyLowerChar (c : Char) : Char :=
  if 65 ≤ c.toNat && c.toNat ≤ 90 then Char.ofNat (c.toNat + 32) else c

/-- `s.lower()`. -/
def pyLower (s : String) : String :=
  String.mk (s.toList.map pyLowerChar)

/-- `'23505' in str(e) or 'duplicate' in str(e).lower()` from the upload
loops of `data_update.py`. -/
def isDuplicateMsg (e : String) : Bool :=
  strContains e "23505" || strContains (pyLower e) "duplicate"

/-- Fixed batch size used by all three upload loops. -/
def BATCH_SIZE : Nat := 500

/-- Split a record list into `records[i:i+bs]` slices, fuel-indexed so the
definition is structural (the fuel is always at least the list length). -/
def chunksFuel {α : Type} (bs : Nat) : Nat → List α → List (List α)
  | _, [] => []
  | 0, _ :: _ => []
  | fuel + 1, x :: xs => ((x :: xs).take bs) :: chunksFuel bs fuel ((x :: xs).drop bs)

/-- The successive batches `records[i:i+bs]` of the upload loop. -/
def chunks {α : Type} (bs : Nat) (l : List α) : List (List α) :=
  chunksFuel bs l.length l

/-- What the store does with one upsert request: applies it, answers with an
HTTP status code, or raises an exception carrying a message. -/
inductive BatchOutcome : Type
  | applied : BatchOutcome
  | httpStatus : Nat → BatchOutcome
  | raised : String → BatchOutcome
  deriving DecidableEq, Repr

/-- What the upload loop reports for one batch. -/
inductive BatchReport : Type
  | uploadedOk : BatchReport
  | httpError : Nat → BatchReport
  | alreadyUpToDate : BatchReport
  | errorLogged : String → BatchReport
  deriving DecidableEq, Repr

/-- Reports the loop treats as errors (printed with an "Error uploading"
message); a duplicate-key conflict is not one of them. -/
def reportIsError : BatchReport → Bool
  | .httpError _ => true
  | .errorLogged _ => true
  | _ => false

/-- One iteration of the upload loop: try the upsert; a status code `>= 300`
is logged as an error, a raised duplicate-key exception is reported as
"already up to date", any other exception is logged; the loop never
re-raises. -/
def runBatch {α κ : Type} [DecidableEq κ] (key : α → κ) (out : BatchOutcome)
    (s : List α) (batch : List α) : List α × BatchReport :=
  match out with
  | .applied => (upsertRows key s batch, .uploadedOk)
  | .httpStatus c =>
    if 300 ≤ c then (s, .httpError c) else (upsertRows key s batch, .uploadedOk)
  | .raised msg =>
    if isDuplicateMsg msg then (s, .alreadyUpToDate) else (s, .errorLogged msg)

/-- Run the upload loop over a list of batches, numbering them from `i`. -/
def runBatches {α κ : Type} [DecidableEq κ] (key : α → κ) (outcome : Nat → BatchOutcome) :
    List α → List (List α) → Nat → List α × List BatchReport
  | s, [], _ => (s, [])
  | s, b :: bs, i =>
    let step := runBatch key (outcome i) s b
    let rest := runBatches key outcome step.1 bs (i + 1)
    (rest.1, step.2 :: rest.2)

/-- The whole upsert phase: slice the records into batches of 500 and feed
them to the store one by one. -/
def uploadBatches {α κ : Type} [DecidableEq κ] (key : α → κ) (outcome : Nat → BatchOutcome)
    (s : List α) (records : List α) : List α × List BatchReport :=
  runBatches key outcome s (chunks BATCH_SIZE records) 0

/-- The store outcome oracle of a run in which every upsert succeeds. -/
def allOk : Nat → BatchOutcome := fun _ => .applied

/-- The batches actually written (outcome applied, or status below 300). -/
def batchApplies : BatchOutcome → Bool
  | .applied => true
  | .httpStatus c => !(300 ≤ c)
  | .raised _ => false

/-- The sub-list of batches the store applied, numbering from `i`. -/
def selectApplied {α : Type} (outcome : Nat → BatchOutcome) :
    List (List α) → Nat → List (List α)
  | [], _ => []
  | b :: bs, i =>
    if batchApplies (outcome i) then b :: selectApplied outcome bs (i + 1)
    else selectApplied outcome bs (i + 1)

/-! ## Range fetcher pagination (`_fetch_all_pages`, `loaders.py`) -/

/-- Page size of the backing store (`PAGE_SIZE = 1000`). -/
def PAGE_SIZE : Nat := 1000

/-- The page `rows[offset : offset + PAGE_SIZE]` served by
`query_builder.range(offset, offset + PAGE_SIZE - 1)`. -/
def pageAt {α : Type} (rows : List α) (offset : Nat) : List α :=
  (rows.drop offset).take PAGE_SIZE

/-- The `while True` page loop of `_fetch_all_pages`, fuel-indexed so the
definition is structural; returns the concatenated rows and the number of
page requests issued.  An empty page or a short page ends the loop. -/
def fetchPagesFuel {α : Type} : Nat → List α → Nat → List α × Nat
  | 0, _, _ => ([], 0)
  | fuel + 1, rows, offset =>
    let page := pageAt rows offset
    if page.isEmpty then ([], 1)
    else if page.length < PAGE_SIZE then (page, 1)
    else
      let rest := fetchPagesFuel fuel rows (offset + PAGE_SIZE)
      (page ++ rest.1, rest.2 + 1)

/-- `_fetch_all_pages`: fetch successive pages starting at offset 0 until a
page comes back shorter than `PAGE_SIZE`. -/
def fetchAllPages {α : Type} (rows : List α) : List α × Nat :=
  fetchPagesFuel (rows.length + 1) rows 0

/-! ## Date-bounds resolver (`fetch_date_bounds`, `loaders.py`) -/

/-- Python `max` over a list (`None` on an empty list would raise; the
caller guards against the empty case). -/
def pyMax : List Nat → Option Nat
  | [] => none
  | x :: xs => some (xs.foldl max x)

/-- Python `min` over a list. -/
def pyMin : List Nat → Option Nat
  | [] => none
  | x :: xs => some (xs.foldl min x)

/-- `fetch_date_bounds`: each table contributes its `(min, max)` datetime
pair, or `none` when it is empty or unreadable
(`_get_table_min_max` returns `(None, None)`).  Dates are day numbers.
Mirrors the source: unavailable tables are filtered out of `mins`/`maxs`;
the today fallback fires when the client is missing, when `mins`/`maxs`
are empty, or when the intersection is inverted. -/
def fetch_date_bounds (today : Nat) (client : Bool)
    (d c w : Option (Nat × Nat)) : Nat × Nat :=
  if !client then (today, today)
  else
    let mins := [d, c, w].filterMap (fun o => o.map Prod.fst)
    let maxs := [d, c, w].filterMap (fun o => o.map Prod.snd)
    match pyMax mins, pyMin maxs with
    | some s, some e => if e < s then (today, today) else (s, e)
    | _, _ => (today, today)

/-! ## Update scheduler gate (`app.py` lines 29-40) -/

/-- Modelled from the spec: `should_run_update` is imported from the data
loaders module and called in `app.py`, but no definition of it exists in
the repository source.  The spec states a refresh is due iff at least
`hoursInterval` hours have elapsed since the recorded last-update
timestamp, or no update has yet run this process lifetime.  Timestamps
are seconds. -/
def should_run_update (now : Nat) (lastUpdate : Option Nat) (hoursInterval : Nat) : Bool :=
  match lastUpdate with
  | none => true
  | some t => hoursInterval * 3600 ≤ now - t

/-- Process-lifetime scheduler state (`st.session_state.data_update_started`). -/
structure SchedState : Type where
  started : Bool
  deriving DecidableEq, Repr

/-- One due-check of the scheduler: launch a single background thread when
not yet started and the staleness gate fires; returns the number of
threads launched by this check. -/
def schedulerStep (st : SchedState) (due : Bool) : SchedState × Nat :=
  if !st.started && due then (⟨true⟩, 1) else (st, 0)

/-! ## Canonical datetime handling (`pd.to_datetime(...).strftime(...)`) -/

/-- A broken-down timestamp as `pd.to_datetime` produces it. -/
structure ParsedDt : Type where
  year : Nat
  month : Nat
  day : Nat
  hour : Nat
  minute : Nat
  second : Nat
  deriving DecidableEq, Repr

/-- The decimal digit character for `n % 10`. -/
def digitChar10 (n : Nat) : Char :=
  Char.ofNat (48 + n % 10)

/-- `strftime('%Y-%m-%dT%H:%M:%S')`: a zero-padded 19-character ISO string
with no timezone designator. -/
def strftimeIso (d : ParsedDt) : String :=
  String.mk [digitChar10 (d.year / 1000), digitChar10 (d.year / 100),
    digitChar10 (d.year / 10), digitChar10 d.year, '-',
    digitChar10 (d.month / 10), digitChar10 d.month, '-',
    digitChar10 (d.day / 10), digitChar10 d.day, 'T',
    digitChar10 (d.hour / 10), digitChar10 d.hour, ':',
    digitChar10 (d.minute / 10), digitChar10 d.minute, ':',
    digitChar10 (d.second / 10), digitChar10 d.second]

/-- Is `s` a canonical `YYYY-MM-DDTHH:MM:SS` string?  The 19-character
shape leaves no room for a timezone offset. -/
def isCanonIso (s : String) : Bool :=
  match s.toList with
  | [y1, y2, y3, y4, '-', m1, m2, '-', d1, d2, 'T',
     h1, h2, ':', n1, n2, ':', s1, s2] =>
    [y1, y2, y3, y4, m1, m2, d1, d2, h1, h2, n1, n2, s1, s2].all Char.isDigit
  | _ => false

/-- The numeric value of a digit character. -/
def digitVal (c : Char) : Option Nat :=
  if c.isDigit then some (c.toNat - 48) else none

/-- Read exactly two decimal digits. -/
def parseNat2 : List Char → Option (Nat × List Char)
  | a :: b :: rest =>
    match digitVal a, digitVal b with
    | some x, some y => some (10 * x + y, rest)
    | _, _ => none
  | _ => none

/-- Read exactly four decimal digits. -/
def parseNat4 : List Char → Option (Nat × List Char)
  | a :: b :: c :: d :: rest =>
    match digitVal a, digitVal b, digitVal c, digitVal d with
    | some w, some x, some y, some z => some (1000 * w + 100 * x + 10 * y + z, rest)
    | _, _, _, _ => none
  | _ => none

/-- Accepted timezone tails: nothing, a trailing `Z`, or an explicit
`+HH:MM` / `-HH:MM` offset (which `strftime` then drops). -/
def parseTzTail : List Char → Bool
  | [] => true
  | ['Z'] => true
  | sign :: rest =>
    (sign = '+' || sign = '-') &&
      match parseNat2 rest with
      | some (_, ':' :: r2) =>
        match parseNat2 r2 with
        | some (_, []) => true
        | _ => false
      | _ => false

/-- Optional `:SS` seconds field followed by a timezone tail. -/
def parseSecTail : List Char → Option Nat
  | [] => some 0
  | ':' :: rest =>
    match parseNat2 rest with
    | some (sec, tail) => if parseTzTail tail then some sec else none
    | none => none
  | l => if parseTzTail l then some 0 else none

/-- `pd.to_datetime` on the ISO-like strings the external APIs serve:
`YYYY-MM-DD`, optionally `THH:MM`, optionally `:SS`, optionally `Z` or a
numeric offset.  `none` models a raised parse exception. -/
def toDatetimeParse (s : String) : Option ParsedDt :=
  match parseNat4 s.toList with
  | some (y, '-' :: r1) =>
    match parseNat2 r1 with
    | some (mo, '-' :: r2) =>
      match parseNat2 r2 with
      | some (dy, r3) =>
        match r3 with
        | [] => some ⟨y, mo, dy, 0, 0, 0⟩
        | 'T' :: r4 =>
          match parseNat2 r4 with
          | some (h, ':' :: r5) =>
            match parseNat2 r5 with
            | some (mi, r6) =>
              match parseSecTail r6 with
              | some sec => some ⟨y, mo, dy, h, mi, sec⟩
              | none => none
            | none => none
          | _ => none
        | _ => none
      | none => none
    | _ => none
  | _ => none

/-! ## Carbon ingestion pipeline (`update_and_upload_carbon_data`) -/

/-- One entry of `regions[].generationmix[]`. -/
structure GenMixEntry : Type where
  fuel : Option String
  perc : Option Int
  deriving DecidableEq, Repr

/-- One entry of the carbon API's `regions[]` array. -/
structure RegionRec : Type where
  regionid : Option Int
  shortname : Option String
  forecast : Option Int
  idx : Option String
  generationmix : List GenMixEntry
  deriving DecidableEq, Repr

/-- The parsed carbon API payload: the snapshot start time
`data['data'][0]['from']` and the region array. -/
structure CarbonPayload : Type where
  fromTime : String
  regions : List RegionRec
  deriving DecidableEq, Repr

/-- A row of the `carbon_intensity` table as the pipeline uploads it. -/
structure CarbonRow : Type where
  datetime : String
  region_id : Option Int
  region_name : Option String
  forecast : Option Int
  idx : Option String
  gen : List (String × Int)
  deriving DecidableEq, Repr

/-- Primary key of the `carbon_intensity` table. -/
def carbonKey (r : CarbonRow) : String × Option Int :=
  (r.datetime, r.region_id)

/-- `' '` replaced by `'_'` in one character (`str.replace(' ', '_')` is
character-wise here). -/
def spaceToUnderscore (c : Char) : Char :=
  if c = ' ' then '_' else c

/-- `s.lower().replace(' ', '_')`. -/
def lowerUnderscore (s : String) : String :=
  String.mk ((s.toList.map pyLowerChar).map spaceToUnderscore)

/-- `gen.get('fuel', '').lower().replace(' ', '_')` prefixed to a
`gen_<fuel>` column name. -/
def normFuel (f : Option String) : String :=
  "gen_" ++ lowerUnderscore (f.getD "")

/-- Build one record of the upload frame from one region entry: forecast and
index are copied as-is (missing stays missing), generation-mix percentages
are the zero-filled `gen_<fuel>` columns, and the datetime is the
canonicalized snapshot time. -/
def carbonRecordOf (d : ParsedDt) (rg : RegionRec) : CarbonRow :=
  { datetime := strftimeIso d
    region_id := rg.regionid
    region_name := rg.shortname
    forecast := rg.forecast
    idx := rg.idx
    gen := rg.generationmix.map (fun g => (normFuel g.fuel, g.perc.getD 0)) }

/-- All records parsed from the payload for a successfully parsed `from`
timestamp. -/
def carbonRecords (d : ParsedDt) (p : CarbonPayload) : List CarbonRow :=
  p.regions.map (carbonRecordOf d)

/-- The validation filter
`(df['forecast'].notna()) & (df['forecast'] != 0) | (df['index'].notna())`. -/
def carbonRowValid (r : CarbonRow) : Bool :=
  (r.forecast.isSome && !(r.forecast = some 0)) || r.idx.isSome

/-- The rows that survive validation and enter the upload batches. -/
def carbonValidRows (d : ParsedDt) (p : CarbonPayload) : List CarbonRow :=
  (carbonRecords d p).filter carbonRowValid

/-! ## Weather ingestion pipeline (`update_and_upload_weather_data`) -/

/-- The `hourly` object of one Open-Meteo response; a `none` array models a
missing key, for which the code substitutes `[None] * len(times)`. -/
structure WeatherApiResp : Type where
  time : List String
  temperature_2m : Option (List (Option Int))
  relative_humidity_2m : Option (List (Option Int))
  wind_speed_10m : Option (List (Option Int))
  cloud_cover : Option (List (Option Int))
  precipitation : Option (List (Option Int))
  deriving DecidableEq, Repr

/-- A gathered weather record, pre-normalization. -/
structure WeatherRec : Type where
  datetime : String
  region_id : Int
  region_name : String
  temperature : Option Int
  humidity : Option Int
  wind_speed : Option Int
  cloud_cover : Option Int
  precipitation : Option Int
  deriving DecidableEq, Repr

/-- `hourly.get(key, [None] * len(times))`. -/
def hourlyGet (o : Option (List (Option Int))) (n : Nat) : List (Option Int) :=
  o.getD (List.replicate n none)

/-- Build the record for hour index `i`; `none` models the `IndexError`
raised when a present hourly array is shorter than `time`. -/
def weatherRecAt (rid : Int) (name : String) (resp : WeatherApiResp)
    (i : Nat) (t : String) : Option WeatherRec :=
  let n := resp.time.length
  match (hourlyGet resp.temperature_2m n).get? i,
    (hourlyGet resp.relative_humidity_2m n).get? i,
    (hourlyGet resp.wind_speed_10m n).get? i,
    (hourlyGet resp.cloud_cover n).get? i,
    (hourlyGet resp.precipitation n).get? i with
  | some tv, some hv, some wv, some cv, some pv =>
    some ⟨t, rid, name, tv, hv, wv, cv, pv⟩
  | _, _, _, _, _ => none

/-- The per-region extraction loop over the enumerated `time` array: rows
append one by one; a raised `IndexError` aborts the region's loop but the
rows appended before it remain (second component reports the failure). -/
def extractGo (rid : Int) (name : String) (resp : WeatherApiResp) :
    List (Nat × String) → List WeatherRec × Bool
  | [] => ([], false)
  | (i, t) :: rest =>
    match weatherRecAt rid name resp i t with
    | none => ([], true)
    | some row =>
      let r := extractGo rid name resp rest
      (row :: r.1, r.2)

/-- All rows one region's response contributes to `all_records`, plus
whether its extraction raised. -/
def extractRegionRows (rid : Int) (name : String) (resp : WeatherApiResp) :
    List WeatherRec × Bool :=
  extractGo rid name resp resp.time.enum

/-- One iteration of the per-region fetch loop: a region whose request
failed (network, HTTP status, JSON decode) is caught and contributes
nothing; a region whose response arrived contributes its extracted rows. -/
def weatherStep (acc : List WeatherRec)
    (f : Int × String × Except String WeatherApiResp) : List WeatherRec :=
  match f.2.2 with
  | .error _ => acc
  | .ok resp => acc ++ (extractRegionRows f.1 f.2.1 resp).1

/-- The `all_records` list the per-region fetch loop accumulates. -/
def weatherAllRecords (fetches : List (Int × String × Except String WeatherApiResp)) :
    List WeatherRec :=
  fetches.foldl weatherStep []

/-- A row of the `weather` table as uploaded: datetime canonicalized,
missing numeric values zero-filled by `df.fillna(0)`. -/
structure WeatherRow : Type where
  datetime : String
  region_id : Int
  region_name : String
  temperature : Int
  humidity : Int
  wind_speed : Int
  cloud_cover : Int
  precipitation : Int
  deriving DecidableEq, Repr

/-- Primary key of the `weather` table. -/
def weatherKey (r : WeatherRow) : String × Int :=
  (r.datetime, r.region_id)

/-- Normalize one gathered record: parse-and-reformat the datetime
(`pd.to_datetime(...).strftime(...)`, outside any `try`, so a parse
failure raises out of the function) and zero-fill missing values. -/
def weatherNormalizeRec (r : WeatherRec) : Except String WeatherRow :=
  match toDatetimeParse r.datetime with
  | none => .error ("to_datetime could not parse " ++ r.datetime)
  | some d =>
    .ok ⟨strftimeIso d, r.region_id, r.region_name, r.temperature.getD 0,
      r.humidity.getD 0, r.wind_speed.getD 0, r.cloud_cover.getD 0,
      r.precipitation.getD 0⟩

/-- Normalize the whole frame; the first unparsable datetime raises. -/
def weatherNormalize : List WeatherRec → Except String (List WeatherRow)
  | [] => .ok []
  | r :: rest =>
    match weatherNormalizeRec r with
    | .error e => .error e
    | .ok row =>
      match weatherNormalize rest with
      | .error e => .error e
      | .ok rows => .ok (row :: rows)

/-! ## Demand ingestion pipeline (`update_and_upload_demand_data`) -/

/-- A Python value in a demand record: string, number, missing (`NaN`), or
a `pandas` timestamp produced by `pd.to_datetime` (which keeps the raw
string it parsed; note it is not itself a string value). -/
inductive PyVal : Type
  | pstr : String → PyVal
  | pnum : Int → PyVal
  | pnan : PyVal
  | pstamp : String → PyVal
  deriving DecidableEq, Repr

/-- Is the value a Python string? -/
def PyVal.isStrVal : PyVal → Bool
  | .pstr _ => true
  | _ => false

/-- `pd.to_datetime` applied to one column value: the result is a
timestamp object, not a string. -/
def pdToDatetimeVal : PyVal → PyVal
  | .pstr s => .pstamp s
  | .pstamp s => .pstamp s
  | _ => .pstamp ""

/-- A demand record: association list from column name to value. -/
abbrev DemandRecord : Type := List (String × PyVal)

/-- Does the column name start with an underscore? -/
def startsWithUnderscore (s : String) : Bool :=
  match s.toList with
  | '_' :: _ => true
  | _ => false

/-- Rename all columns to lowercase-with-underscores
(`col.lower().replace(' ', '_')`). -/
def demandRenameCols (rec : DemandRecord) : DemandRecord :=
  rec.map (fun p => (lowerUnderscore p.1, p.2))

/-- Drop internal metadata columns whose name starts with an underscore. -/
def demandStripMeta (rec : DemandRecord) : DemandRecord :=
  rec.filter (fun p => !(startsWithUnderscore p.1))

/-- `df['datetime'] = pd.to_datetime(df['settlement_date'])` followed by
dropping `settlement_date`: the new column holds timestamp objects; no
`strftime` string normalization is applied. -/
def demandMapDatetime (rec : DemandRecord) : DemandRecord :=
  rec.map (fun p =>
    if p.1 = "settlement_date" then ("datetime", pdToDatetimeVal p.2) else p)

/-- Zero-fill missing numeric values. -/
def demandFillNan (rec : DemandRecord) : DemandRecord :=
  rec.map (fun p => match p.2 with | .pnan => (p.1, .pnum 0) | _ => p)

/-- The full demand normalization chain applied to one fetched record. -/
def normalizeDemandRecord (rec : DemandRecord) : DemandRecord :=
  demandFillNan (demandMapDatetime (demandStripMeta (demandRenameCols rec)))

/-- The value stored in the `datetime` field of a normalized record. -/
def demandDatetimeVal (rec : DemandRecord) : Option PyVal :=
  ((normalizeDemandRecord rec).find? (fun p => p.1 = "datetime")).map Prod.snd

/-- Primary key of the `historic_demand` table. -/
def demandKey (rec : DemandRecord) : Option PyVal :=
  (rec.find? (fun p => p.1 = "datetime")).map Prod.snd

/-! ## Background update coordinator (`_run_data_updates`, `app.py`) -/

/-- The three tables the background run may touch. -/
structure DashState : Type where
  carbonS : List CarbonRow
  weatherS : List WeatherRow
  demandS : List DemandRecord
  deriving DecidableEq, Repr

/-- A pipeline invocation: either a normal return with the updated state
and its log lines, or a raised exception carrying the state reached so
far. -/
def PipeRun : Type :=
  DashState → Except (String × DashState) (DashState × List String)

/-- One `try/except` arm of `_run_data_updates`: the exception is caught
and logged, never re-raised, and the state the pipeline reached is kept. -/
def tryPipe (p : PipeRun) (st : DashState) : DashState × List String :=
  match p st with
  | .ok r => r
  | .error e => (e.2, ["Background: Could not update data: " ++ e.1])

/-- `_run_data_updates`: run the carbon, weather and demand pipelines in
order, each under its own `try/except`; always returns (no exception
escapes). -/
def runDataUpdates (pc pw pd : PipeRun) (st : DashState) : DashState × List String :=
  let a := tryPipe pc st
  let b := tryPipe pw a.1
  let c := tryPipe pd b.1
  (c.1, a.2 ++ b.2 ++ c.2)

/-- `update_and_upload_carbon_data` over abstract gate / fetch / store
inputs.  The freshness gate runs outside any `try`, so its exception
propagates; fetch and record-parsing errors are caught inside; the
datetime conversion runs outside the `try` and raises on failure. -/
def carbonPipeline (gate : Except String Bool) (fetch : Except String CarbonPayload)
    (outcome : Nat → BatchOutcome) : PipeRun := fun st =>
  match gate with
  | .error e => .error (e, st)
  | .ok false => .ok (st, [])
  | .ok true =>
    match fetch with
    | .error e => .ok (st, ["Could not fetch carbon data from API: " ++ e])
    | .ok p =>
      match toDatetimeParse p.fromTime with
      | none => .error ("to_datetime could not parse " ++ p.fromTime, st)
      | some d =>
        let valid := carbonValidRows d p
        if valid.isEmpty then .ok (st, ["No valid carbon data to upload after validation"])
        else
          let r := uploadBatches carbonKey outcome st.carbonS valid
          .ok ({ st with carbonS := r.1 }, [])

/-- `update_and_upload_weather_data` over abstract inputs: the freshness
gate may raise; each region's fetch error is caught inside the loop; the
frame-level datetime normalization raises on failure; an empty
`all_records` ends the run with nothing uploaded. -/
def weatherPipeline (gate : Except String Bool)
    (fetches : List (Int × String × Except String WeatherApiResp))
    (outcome : Nat → BatchOutcome) : PipeRun := fun st =>
  match gate with
  | .error e => .error (e, st)
  | .ok false => .ok (st, [])
  | .ok true =>
    let recs := weatherAllRecords fetches
    if recs.isEmpty then .ok (st, ["No weather data fetched."])
    else
      match weatherNormalize recs with
      | .error e => .error (e, st)
      | .ok rows =>
        let r := uploadBatches weatherKey outcome st.weatherS rows
        .ok ({ st with weatherS := r.1 }, [])

/-- `update_and_upload_demand_data` over abstract inputs: the latest-row
check is caught internally (falling back to the 90-day window), a fetch
error is caught, empty results end the run, otherwise the normalized
records are uploaded in batches. -/
def demandPipeline (fetch : Except String (List DemandRecord))
    (outcome : Nat → BatchOutcome) : PipeRun := fun st =>
  match fetch with
  | .error e => .ok (st, ["Error fetching demand data from NESO API: " ++ e])
  | .ok recs =>
    if recs.isEmpty then .ok (st, ["No demand data fetched."])
    else
      let rows := recs.map normalizeDemandRecord
      let r := uploadBatches demandKey outcome st.demandS rows
      .ok ({ st with demandS := r.1 }, [])

/-! ## Cache keys of the memoized range fetchers -/

/-- `tuple(effective_regions)` from `app.py`: the order of the selection is
preserved. -/
def regionsTuple (regions : List String) : List String := regions

/-- The memoization key `st.cache_data` derives for `fetch_carbon_range`
(and `fetch_weather_range`): the argument tuple, with the region tuple
taken verbatim. -/
def rangeCacheKey (table : String) (startD endD : Nat) (regions : List String) :
    String × Nat × Nat × List String :=
  (table, startD, endD, regionsTuple regions)

/-! ## Lemmas about the keyed upsert -/

theorem lastWith_key_eq {α κ : Type} [DecidableEq κ] (key : α → κ) :
    ∀ {rs : List α} {k : κ} {x : α}, lastWith key rs k = some x → key x = k := by
  intro rs
  induction rs with
  | nil => intro k x h; simp [lastWith] at h
  | cons r rest ih =>
    intro k x h
    simp only [lastWith] at h
    cases hr : lastWith key rest k with
    | some y =>
      rw [hr] at h
      cases h
      exact ih hr
    | none =>
      rw [hr] at h
      by_cases hk : key r = k
      · rw [if_pos hk] at h
        cases h
        exact hk
      · rw [if_neg hk] at h
        cases h

theorem key_subst {α κ : Type} [DecidableEq κ] (key : α → κ) (rs : List α) (x : α) :
    key (subst key rs x) = key x := by
  unfold subst
  cases h : lastWith key rs (key x) with
  | none => simp
  | some y => simpa using lastWith_key_eq key h

theorem hasKey_append {α κ : Type} [DecidableEq κ] (key : α → κ) (s t : List α) (k : κ) :
    hasKey key (s ++ t) k = (hasKey key s k || hasKey key t k) := by
  simp [hasKey, List.any_append]

theorem hasKey_replaceKey {α κ : Type} [DecidableEq κ] (key : α → κ) (s : List α) (r : α)
    (k : κ) : hasKey key (replaceKey key s r) k = hasKey key s k := by
  induction s with
  | nil => rfl
  | cons x xs ih =>
    simp only [replaceKey, List.map_cons, hasKey, List.any_cons] at ih ⊢
    by_cases hx : key x = key r
    · rw [if_pos hx, hx, ih]
    · rw [if_neg hx, ih]

theorem hasKey_single {α κ : Type} [DecidableEq κ] (key : α → κ) (r : α) (k : κ) :
    hasKey key [r] k = decide (key r = k) := by
  simp [hasKey]

theorem hasKey_upsertRow {α κ : Type} [DecidableEq κ] (key : α → κ) (s : List α) (r : α)
    (k : κ) : hasKey key (upsertRow key s r) k = (hasKey key s k || decide (key r = k)) := by
  unfold upsertRow
  by_cases h : hasKey key s (key r) = true
  · rw [if_pos h, hasKey_replaceKey]
    by_cases hk : key r = k
    · rw [← hk, h]
      simp
    · simp [hk]
  · rw [if_neg h, hasKey_append, hasKey_single]

theorem hasKey_upsertRows {α κ : Type} [DecidableEq κ] (key : α → κ) (s rs : List α)
    (k : κ) :
    hasKey key (upsertRows key s rs) k
      = (hasKey key s k || rs.any (fun r => key r = k)) := by
  induction rs generalizing s with
  | nil => simp [upsertRows]
  | cons r rest ih =>
    simp only [upsertRows, List.foldl_cons] at ih ⊢
    rw [ih, hasKey_upsertRow, List.any_cons, Bool.or_assoc]

theorem fresh_congr {α κ : Type} [DecidableEq κ] (key : α → κ) :
    ∀ (rs : List α) {s₁ s₂ : List α},
      (∀ k, hasKey key s₁ k = hasKey key s₂ k) → fresh key s₁ rs = fresh key s₂ rs := by
  intro rs
  induction rs with
  | nil => intro s₁ s₂ _; rfl
  | cons r rest ih =>
    intro s₁ s₂ h
    simp only [fresh]
    rw [h (key r)]
    by_cases hr : hasKey key s₂ (key r) = true
    · rw [if_pos hr, if_pos hr]
      exact ih h
    · rw [if_neg hr, if_neg hr]
      have h' : ∀ k, hasKey key (s₁ ++ [r]) k = hasKey key (s₂ ++ [r]) k := by
        intro k
        rw [hasKey_append, hasKey_append, h]
      rw [ih h']

theorem subst_cons_of_eq {α κ : Type} [DecidableEq κ] (key : α → κ) {r x : α}
    (hx : key x = key r) (rs : List α) : subst key (r :: rs) x = subst key rs r := by
  unfold subst
  simp only [lastWith, hx]
  cases h : lastWith key rs (key r) with
  | some y => simp [h]
  | none => simp [h]

theorem subst_cons_of_ne {α κ : Type} [DecidableEq κ] (key : α → κ) {r x : α}
    (hx : ¬ key x = key r) (rs : List α) : subst key (r :: rs) x = subst key rs x := by
  unfold subst
  simp only [lastWith]
  cases h : lastWith key rs (key x) with
  | some y => simp [h]
  | none =>
    have : ¬ key r = key x := fun hh => hx hh.symm
    simp [h, this]

theorem upsertRow_of_hasKey {α κ : Type} [DecidableEq κ] (key : α → κ) {s : List α} {r : α}
    (h : hasKey key s (key r) = true) : upsertRow key s r = replaceKey key s r := by
  unfold upsertRow
  rw [if_pos h]

theorem upsertRow_of_not_hasKey {α κ : Type} [DecidableEq κ] (key : α → κ) {s : List α}
    {r : α} (h : ¬ hasKey key s (key r) = true) : upsertRow key s r = s ++ [r] := by
  unfold upsertRow
  rw [if_neg h]

theorem not_hasKey_forall {α κ : Type} [DecidableEq κ] (key : α → κ) {s : List α} {k : κ}
    (h : ¬ hasKey key s k = true) : ∀ x ∈ s, ¬ key x = k := by
  intro x hx hk
  exact h (by simp [hasKey, List.any_eq_true]; exact ⟨x, hx, hk⟩)

theorem upsertRows_eq_nf {α κ : Type} [DecidableEq κ] (key : α → κ) :
    ∀ (rs s : List α), upsertRows key s rs = s.map (subst key rs) ++ fresh key s rs := by
  intro rs
  induction rs with
  | nil =>
    intro s
    simp only [upsertRows, List.foldl_nil, fresh, List.append_nil]
    have : ∀ x : α, subst key ([] : List α) x = x := by
      intro x
      simp [subst, lastWith]
    rw [List.map_congr_left (fun a _ => this a), List.map_id' s]
  | cons r rest ih =>
    intro s
    simp only [upsertRows, List.foldl_cons]
    have step := ih (upsertRow key s r)
    simp only [upsertRows] at step
    rw [step]
    by_cases h : hasKey key s (key r) = true
    · rw [upsertRow_of_hasKey key h]
      have hmap : (replaceKey key s r).map (subst key rest)
          = s.map (subst key (r :: rest)) := by
        unfold replaceKey
        rw [List.map_map]
        apply List.map_congr_left
        intro x _
        simp only [Function.comp]
        by_cases hx : key x = key r
        · rw [if_pos hx, ← subst_cons_of_eq key hx rest]
        · rw [if_neg hx, ← subst_cons_of_ne key hx rest]
      have hfresh : fresh key (replaceKey key s r) rest = fresh key s (r :: rest) := by
        have := fresh_congr key rest (fun k => hasKey_replaceKey key s r k)
        rw [this]
        simp only [fresh]
        rw [if_pos h]
      rw [hmap, hfresh]
    · rw [upsertRow_of_not_hasKey key h]
      have hmap : (s ++ [r]).map (subst key rest)
          = s.map (subst key (r :: rest)) ++ [subst key rest r] := by
        rw [List.map_append]
        congr 1
        apply List.map_congr_left
        intro x hx
        have hne : ¬ key x = key r := not_hasKey_forall key h x hx
        rw [subst_cons_of_ne key hne rest]
      have hfresh : fresh key s (r :: rest) = subst key rest r :: fresh key (s ++ [r]) rest := by
        simp only [fresh]
        rw [if_neg h]
      rw [hmap, hfresh, List.append_assoc]
      rfl

theorem subst_subst {α κ : Type} [DecidableEq κ] (key : α → κ) (rs : List α) (x : α) :
    subst key rs (subst key rs x) = subst key rs x := by
  have hk : key (subst key rs x) = key x := key_subst key rs x
  show (lastWith key rs (key (subst key rs x))).getD (subst key rs x) = subst key rs x
  rw [hk]
  cases h : lastWith key rs (key x) with
  | none => simp
  | some y =>
    have hy : subst key rs x = y := by simp [subst, h]
    simp [hy]

theorem fresh_mem_lastWith {α κ : Type} [DecidableEq κ] (key : α → κ) :
    ∀ (rs : List α) {s : List α} {x : α},
      x ∈ fresh key s rs → lastWith key rs (key x) = some x := by
  intro rs
  induction rs with
  | nil => intro s x h; simp [fresh] at h
  | cons r rest ih =>
    intro s x h
    simp only [fresh] at h
    by_cases hr : hasKey key s (key r) = true
    · rw [if_pos hr] at h
      have := ih h
      simp only [lastWith, this]
    · rw [if_neg hr] at h
      rcases List.mem_cons.mp h with hx | hx
      · subst hx
        rw [key_subst key rest r]
        cases hl : lastWith key rest (key r) with
        | some y =>
          have hy : subst key rest r = y := by simp [subst, hl]
          simp only [lastWith, hl, hy]
        | none =>
          have hy : subst key rest r = r := by simp [subst, hl]
          simp [lastWith, hl, hy]
      · have := ih hx
        simp only [lastWith, this]

theorem fresh_keys_not_in {α κ : Type} [DecidableEq κ] (key : α → κ) :
    ∀ (rs : List α) {s : List α} {x : α},
      x ∈ fresh key s rs → hasKey key s (key x) = false := by
  intro rs
  induction rs with
  | nil => intro s x h; simp [fresh] at h
  | cons r rest ih =>
    intro s x h
    simp only [fresh] at h
    by_cases hr : hasKey key s (key r) = true
    · rw [if_pos hr] at h
      exact ih h
    · rw [if_neg hr] at h
      rcases List.mem_cons.mp h with hx | hx
      · subst hx
        rw [key_subst key rest r]
        exact Bool.not_eq_true _ ▸ (Bool.of_not_eq_true hr)
      · have := ih hx
        rw [hasKey_append] at this
        exact (Bool.or_eq_false_iff.mp this).1

theorem hasKey_fresh_of_mem {α κ : Type} [DecidableEq κ] (key : α → κ) :
    ∀ (rs : List α) {s : List α} {k : κ},
      hasKey key s k = false → rs.any (fun r => key r = k) = true →
      hasKey key (fresh key s rs) k = true := by
  intro rs
  induction rs with
  | nil => intro s k _ h; simp at h
  | cons r rest ih =>
    intro s k hs hrs
    simp only [fresh]
    by_cases hk : key r = k
    · by_cases hr : hasKey key s (key r) = true
      · rw [hk] at hr
        rw [hr] at hs
        cases hs
      · rw [if_neg hr]
        simp [hasKey, List.any_cons, key_subst, hk]
    · have h2 : rest.any (fun r => key r = k) = true := by
        simp only [List.any_cons, Bool.or_eq_true] at hrs
        rcases hrs with h1 | h2
        · exact absurd (by simpa using h1) hk
        · exact h2
      by_cases hr : hasKey key s (key r) = true
      · rw [if_pos hr]
        exact ih hs h2
      · rw [if_neg hr]
        have hs' : hasKey key (s ++ [r]) k = false := by
          rw [hasKey_append, hasKey_single, hs]
          simpa using hk
        have := ih hs' h2
        simp only [hasKey, List.any_cons, Bool.or_eq_true]
        right
        exact this

theorem fresh_eq_nil {α κ : Type} [DecidableEq κ] (key : α → κ) :
    ∀ (rs : List α) {s : List α},
      (∀ r ∈ rs, hasKey key s (key r) = true) → fresh key s rs = [] := by
  intro rs
  induction rs with
  | nil => intro s _; rfl
  | cons r rest ih =>
    intro s h
    simp only [fresh]
    rw [if_pos (h r (List.mem_cons_self r rest))]
    exact ih (fun x hx => h x (List.mem_cons_of_mem _ hx))

theorem fresh_keys_nodup {α κ : Type} [DecidableEq κ] (key : α → κ) :
    ∀ (rs s : List α), ((fresh key s rs).map key).Nodup := by
  intro rs
  induction rs with
  | nil => intro s; simp [fresh]
  | cons r rest ih =>
    intro s
    simp only [fresh]
    by_cases hr : hasKey key s (key r) = true
    · rw [if_pos hr]
      exact ih s
    · rw [if_neg hr]
      simp only [List.map_cons, List.nodup_cons]
      refine ⟨?_, ih (s ++ [r])⟩
      intro hmem
      rw [key_subst key rest r] at hmem
      rcases List.mem_map.mp hmem with ⟨y, hy, hky⟩
      have hnot := fresh_keys_not_in key rest hy
      rw [hasKey_append, hasKey_single] at hnot
      have := (Bool.or_eq_false_iff.mp hnot).2
      rw [hky] at this
      simp at this

theorem hasKey_map_subst {α κ : Type} [DecidableEq κ] (key : α → κ) (s rs : List α)
    (k : κ) : hasKey key (s.map (subst key rs)) k = hasKey key s k := by
  induction s with
  | nil => rfl
  | cons x xs ih =>
    simp only [List.map_cons, hasKey, List.any_cons] at ih ⊢
    rw [key_subst key rs x, ih]

theorem hasKey_eq_true_iff {α κ : Type} [DecidableEq κ] (key : α → κ) (s : List α)
    (k : κ) : hasKey key s k = true ↔ k ∈ s.map key := by
  simp only [hasKey, List.any_eq_true, List.mem_map, decide_eq_true_eq]

theorem upsertRows_idem {α κ : Type} [DecidableEq κ] (key : α → κ) (s rs : List α) :
    upsertRows key (upsertRows key s rs) rs = upsertRows key s rs := by
  rw [upsertRows_eq_nf key rs s, upsertRows_eq_nf key rs]
  have hfresh : fresh key (s.map (subst key rs) ++ fresh key s rs) rs = [] := by
    apply fresh_eq_nil
    intro r hr
    rw [hasKey_append, hasKey_map_subst]
    by_cases h : hasKey key s (key r) = true
    · rw [h]
      rfl
    · have hf : hasKey key (fresh key s rs) (key r) = true := by
        apply hasKey_fresh_of_mem key rs (Bool.of_not_eq_true h)
        simp only [List.any_eq_true, decide_eq_true_eq]
        exact ⟨r, hr, rfl⟩
      rw [hf]
      simp
  rw [hfresh, List.append_nil, List.map_append, List.map_map]
  congr 1
  · apply List.map_congr_left
    intro x _
    simp only [Function.comp]
    exact subst_subst key rs x
  · have : ∀ x ∈ fresh key s rs, subst key rs x = x := by
      intro x hx
      have := fresh_mem_lastWith key rs hx
      simp [subst, this]
    rw [List.map_congr_left this, List.map_id' (fresh key s rs)]

theorem upsertRows_latest {α κ : Type} [DecidableEq κ] (key : α → κ) {s rs : List α}
    {x v : α} (hx : x ∈ upsertRows key s rs)
    (hv : lastWith key rs (key x) = some v) : x = v := by
  rw [upsertRows_eq_nf] at hx
  rcases List.mem_append.mp hx with h | h
  · rcases List.mem_map.mp h with ⟨y, _, rfl⟩
    rw [key_subst key rs y] at hv
    simp [subst, hv]
  · have hl := fresh_mem_lastWith key rs h
    rw [hl] at hv
    cases hv
    rfl

theorem upsertRows_nodup {α κ : Type} [DecidableEq κ] (key : α → κ) {s : List α}
    (rs : List α) (h : (s.map key).Nodup) : ((upsertRows key s rs).map key).Nodup := by
  rw [upsertRows_eq_nf, List.map_append, List.map_map]
  apply List.Nodup.append
  · have : ∀ x ∈ s, (key ∘ subst key rs) x = key x := by
      intro x _
      exact key_subst key rs x
    rw [List.map_congr_left this]
    exact h
  · exact fresh_keys_nodup key rs s
  · intro k hk1 hk2
    rcases List.mem_map.mp hk2 with ⟨y, hy, hky⟩
    have hnot := fresh_keys_not_in key rs hy
    rw [hky] at hnot
    have := (hasKey_eq_true_iff key s k).mpr ?_
    · rw [this] at hnot
      cases hnot
    · have : ∀ x ∈ s, (key ∘ subst key rs) x = key x := fun x _ => key_subst key rs x
      rw [List.map_congr_left this] at hk1
      exact hk1

/-! ## Lemmas about the batched upload loop -/

theorem chunksFuel_flatten {α : Type} {bs : Nat} (hbs : 0 < bs) :
    ∀ (fuel : Nat) (l : List α), l.length ≤ fuel → (chunksFuel bs fuel l).flatten = l := by
  intro fuel
  induction fuel with
  | zero =>
    intro l hl
    cases l with
    | nil => rfl
    | cons x xs => simp at hl
  | succ fuel ih =>
    intro l hl
    cases l with
    | nil => rfl
    | cons x xs =>
      simp only [chunksFuel, List.flatten_cons]
      have hl' : ((x :: xs).drop bs).length ≤ fuel := by
        rw [List.length_drop]
        simp only [List.length_cons] at hl ⊢
        omega
      rw [ih ((x :: xs).drop bs) hl']
      exact List.take_append_drop bs (x :: xs)

theorem chunks_flatten {α : Type} {bs : Nat} (hbs : 0 < bs) (l : List α) :
    (chunks bs l).flatten = l :=
  chunksFuel_flatten hbs l.length l (Nat.le_refl _)

theorem chunksFuel_mem_bounds {α : Type} {bs : Nat} (hbs : 0 < bs) :
    ∀ (fuel : Nat) (l : List α), l.length ≤ fuel →
      ∀ c ∈ chunksFuel bs fuel l, c.length ≤ bs ∧ c ≠ [] := by
  intro fuel
  induction fuel with
  | zero =>
    intro l hl c hc
    cases l with
    | nil => simp [chunksFuel] at hc
    | cons x xs => simp at hl
  | succ fuel ih =>
    intro l hl c hc
    cases l with
    | nil => simp [chunksFuel] at hc
    | cons x xs =>
      simp only [chunksFuel, List.mem_cons] at hc
      rcases hc with rfl | hc
      · constructor
        · simp [List.length_take]
        · intro hnil
          have := congrArg List.length hnil
          simp [List.length_take] at this
          omega
      · have hl' : ((x :: xs).drop bs).length ≤ fuel := by
          rw [List.length_drop]
          simp only [List.length_cons] at hl ⊢
          omega
        exact ih ((x :: xs).drop bs) hl' c hc

theorem chunksFuel_dropLast_full {α : Type} {bs : Nat} (hbs : 0 < bs) :
    ∀ (fuel : Nat) (l : List α), l.length ≤ fuel →
      ∀ c ∈ (chunksFuel bs fuel l).dropLast, c.length = bs := by
  intro fuel
  induction fuel with
  | zero =>
    intro l hl c hc
    cases l with
    | nil => simp [chunksFuel] at hc
    | cons x xs => simp at hl
  | succ fuel ih =>
    intro l hl c hc
    cases l with
    | nil => simp [chunksFuel] at hc
    | cons x xs =>
      simp only [chunksFuel] at hc
      cases hrest : chunksFuel bs fuel ((x :: xs).drop bs) with
      | nil =>
        rw [hrest] at hc
        simp at hc
      | cons y ys =>
        rw [hrest] at hc
        rw [List.dropLast_cons₂] at hc
        rcases List.mem_cons.mp hc with rfl | hc2
        · have hdrop : (x :: xs).drop bs ≠ [] := by
            intro hd
            rw [hd] at hrest
            simp [chunksFuel] at hrest
          have hlen : bs < (x :: xs).length := by
            by_contra hcon
            push_neg at hcon
            exact hdrop (List.drop_eq_nil_of_le hcon)
          simp only [List.length_take, List.length_cons]
          simp only [List.length_cons] at hlen
          omega
        · have hl' : ((x :: xs).drop bs).length ≤ fuel := by
            rw [List.length_drop]
            simp only [List.length_cons] at hl ⊢
            omega
          have := ih ((x :: xs).drop bs) hl' c
          rw [hrest] at this
          exact this hc2

theorem runBatches_reports_length {α κ : Type} [DecidableEq κ] (key : α → κ)
    (outcome : Nat → BatchOutcome) :
    ∀ (bs : List (List α)) (s : List α) (i : Nat),
      ((runBatches key outcome s bs i).2).length = bs.length := by
  intro bs
  induction bs with
  | nil => intro s i; rfl
  | cons b rest ih =>
    intro s i
    simp only [runBatches, List.length_cons]
    rw [ih]

theorem runBatches_store {α κ : Type} [DecidableEq κ] (key : α → κ)
    (outcome : Nat → BatchOutcome) :
    ∀ (bs : List (List α)) (s : List α) (i : Nat),
      (runBatches key outcome s bs i).1
        = (selectApplied outcome bs i).foldl (fun t c => upsertRows key t c) s := by
  intro bs
  induction bs with
  | nil => intro s i; rfl
  | cons b rest ih =>
    intro s i
    simp only [runBatches, selectApplied]
    cases h : outcome i with
    | applied =>
      rw [ih]
      simp [runBatch, batchApplies]
    | httpStatus c =>
      rw [ih]
      by_cases hc : 300 ≤ c
      · simp [runBatch, batchApplies, hc]
      · simp [runBatch, batchApplies, hc]
    | raised m =>
      rw [ih]
      by_cases hm : isDuplicateMsg m = true
      · simp [runBatch, batchApplies, hm]
      · simp [runBatch, batchApplies, hm]

theorem selectApplied_allOk {α : Type} :
    ∀ (bs : List (List α)) (i : Nat), selectApplied allOk bs i = bs := by
  intro bs
  induction bs with
  | nil => intro i; rfl
  | cons b rest ih =>
    intro i
    simp [selectApplied, allOk, batchApplies, ih]

theorem foldl_upsert_flatten {α κ : Type} [DecidableEq κ] (key : α → κ) :
    ∀ (bs : List (List α)) (s : List α),
      bs.foldl (fun t c => upsertRows key t c) s = upsertRows key s bs.flatten := by
  intro bs
  induction bs with
  | nil => intro s; rfl
  | cons b rest ih =>
    intro s
    simp only [List.foldl_cons, List.flatten_cons]
    rw [ih]
    simp [upsertRows, List.foldl_append]

theorem uploadBatches_allOk {α κ : Type} [DecidableEq κ] (key : α → κ)
    (s records : List α) :
    (uploadBatches key allOk s records).1 = upsertRows key s records := by
  unfold uploadBatches
  rw [runBatches_store, selectApplied_allOk, foldl_upsert_flatten,
    chunks_flatten (by decide : 0 < BATCH_SIZE)]

/-! ## Lemmas about the paginated fetcher -/

theorem fetchPagesFuel_spec {α : Type} :
    ∀ (fuel : Nat) (rows : List α) (offset : Nat),
      (rows.length - offset) / PAGE_SIZE < fuel →
      fetchPagesFuel fuel rows offset
        = (rows.drop offset, (rows.length - offset) / PAGE_SIZE + 1) := by
  intro fuel
  induction fuel with
  | zero =>
    intro rows offset h
    exact absurd h (Nat.not_lt_zero _)
  | succ fuel ih =>
    intro rows offset h
    simp only [fetchPagesFuel, pageAt]
    by_cases hemp : ((rows.drop offset).take PAGE_SIZE).isEmpty = true
    · rw [if_pos hemp]
      have hnil : rows.drop offset = [] := by
        rcases List.isEmpty_iff.mp hemp with htake
        cases hd : rows.drop offset with
        | nil => rfl
        | cons y ys =>
          rw [hd] at htake
          simp [PAGE_SIZE] at htake
      have hlen : rows.length - offset = 0 := by
        have := congrArg List.length hnil
        simpa [List.length_drop] using this
      rw [hnil, hlen]
      norm_num
    · rw [if_neg hemp]
      have hlendrop : (rows.drop offset).length = rows.length - offset :=
        List.length_drop offset rows
      by_cases hshort : ((rows.drop offset).take PAGE_SIZE).length < PAGE_SIZE
      · rw [if_pos hshort]
        have hlt : rows.length - offset < PAGE_SIZE := by
          rw [List.length_take, hlendrop] at hshort
          omega
        have htake : (rows.drop offset).take PAGE_SIZE = rows.drop offset :=
          List.take_of_length_le (by rw [hlendrop]; omega)
        rw [htake, Nat.div_eq_of_lt hlt]
      · rw [if_neg hshort]
        have hfull : ((rows.drop offset).take PAGE_SIZE).length = PAGE_SIZE := by
          rw [List.length_take]
          rw [List.length_take, hlendrop] at hshort
          omega
        have hge : PAGE_SIZE ≤ rows.length - offset := by
          rw [List.length_take, hlendrop] at hfull
          omega
        have hrec : (rows.length - (offset + PAGE_SIZE)) / PAGE_SIZE < fuel := by
          have hdiv := Nat.div_eq_sub_div (by norm_num [PAGE_SIZE] : 0 < PAGE_SIZE) hge
          have : rows.length - (offset + PAGE_SIZE) = rows.length - offset - PAGE_SIZE := by
            omega
          rw [this]
          omega
        rw [ih rows (offset + PAGE_SIZE) hrec]
        have hdrop : rows.drop (offset + PAGE_SIZE) = (rows.drop offset).drop PAGE_SIZE := by
          rw [List.drop_drop]
        have hjoin : (rows.drop offset).take PAGE_SIZE ++ rows.drop (offset + PAGE_SIZE)
            = rows.drop offset := by
          rw [hdrop]
          exact List.take_append_drop PAGE_SIZE (rows.drop offset)
        have hcount : (rows.length - (offset + PAGE_SIZE)) / PAGE_SIZE + 1
            = (rows.length - offset) / PAGE_SIZE := by
          have hdiv := Nat.div_eq_sub_div (by norm_num [PAGE_SIZE] : 0 < PAGE_SIZE) hge
          have : rows.length - (offset + PAGE_SIZE) = rows.length - offset - PAGE_SIZE := by
            omega
          rw [this]
          omega
        rw [hjoin, hcount]

theorem fetchAllPages_spec {α : Type} (rows : List α) :
    fetchAllPages rows = (rows, rows.length / PAGE_SIZE + 1) := by
  unfold fetchAllPages
  rw [fetchPagesFuel_spec (rows.length + 1) rows 0 ?_]
  · simp
  · have := Nat.div_le_self rows.length PAGE_SIZE
    simp only [Nat.sub_zero]
    omega

/-! ## Lemmas about datetime normalization and the weather loop -/

theorem isDigit_digitChar10 (n : Nat) : (digitChar10 n).isDigit = true := by
  unfold digitChar10
  have h : n % 10 < 10 := Nat.mod_lt _ (by norm_num)
  set m := n % 10 with hm
  interval_cases m <;> decide

theorem isCanonIso_strftimeIso (d : ParsedDt) : isCanonIso (strftimeIso d) = true := by
  show ([digitChar10 (d.year / 1000), digitChar10 (d.year / 100), digitChar10 (d.year / 10),
    digitChar10 d.year, digitChar10 (d.month / 10), digitChar10 d.month,
    digitChar10 (d.day / 10), digitChar10 d.day, digitChar10 (d.hour / 10),
    digitChar10 d.hour, digitChar10 (d.minute / 10), digitChar10 d.minute,
    digitChar10 (d.second / 10), digitChar10 d.second].all Char.isDigit) = true
  simp [List.all_cons, isDigit_digitChar10]

theorem carbonValidRows_canon (d : ParsedDt) (p : CarbonPayload) :
    ∀ r ∈ carbonValidRows d p, isCanonIso r.datetime = true := by
  intro r hr
  have hmem : r ∈ carbonRecords d p := List.mem_of_mem_filter hr
  rcases List.mem_map.mp hmem with ⟨rg, _, rfl⟩
  exact isCanonIso_strftimeIso d

theorem weatherNormalize_canon :
    ∀ (recs : List WeatherRec) (rows : List WeatherRow),
      weatherNormalize recs = .ok rows → ∀ r ∈ rows, isCanonIso r.datetime = true := by
  intro recs
  induction recs with
  | nil =>
    intro rows h r hr
    simp only [weatherNormalize] at h
    cases h
    simp at hr
  | cons x rest ih =>
    intro rows h r hr
    simp only [weatherNormalize] at h
    cases hx : weatherNormalizeRec x with
    | error ex =>
      rw [hx] at h
      cases h
    | ok row =>
      rw [hx] at h
      cases hrest : weatherNormalize rest with
      | error ex =>
        rw [hrest] at h
        cases h
      | ok rows' =>
        rw [hrest] at h
        cases h
        rcases List.mem_cons.mp hr with rfl | hr2
        · unfold weatherNormalizeRec at hx
          cases hp : toDatetimeParse x.datetime with
          | none =>
            rw [hp] at hx
            cases hx
          | some dd =>
            rw [hp] at hx
            cases hx
            exact isCanonIso_strftimeIso dd
        · exact ih rows' hrest r hr2

theorem weatherStep_error {f : Int × String × Except String WeatherApiResp}
    (e : String) (hf : f.2.2 = Except.error e) (acc : List WeatherRec) :
    weatherStep acc f = acc := by
  unfold weatherStep
  rw [hf]

theorem weatherStep_ok {f : Int × String × Except String WeatherApiResp}
    (resp : WeatherApiResp) (hf : f.2.2 = Except.ok resp) (acc : List WeatherRec) :
    weatherStep acc f = acc ++ (extractRegionRows f.1 f.2.1 resp).1 := by
  unfold weatherStep
  rw [hf]

theorem weatherAllRecords_go
    (fetches : List (Int × String × Except String WeatherApiResp)) :
    ∀ acc, fetches.foldl weatherStep acc = acc ++ weatherAllRecords fetches := by
  induction fetches with
  | nil =>
    intro acc
    simp [weatherAllRecords]
  | cons f rest ih =>
    intro acc
    simp only [weatherAllRecords, List.foldl_cons]
    cases hf : f.2.2 with
    | error e =>
      rw [weatherStep_error e hf acc, weatherStep_error e hf [], ih acc, ih []]
      simp
    | ok resp =>
      rw [weatherStep_ok resp hf acc, weatherStep_ok resp hf [],
        ih (acc ++ (extractRegionRows f.1 f.2.1 resp).1),
        ih ([] ++ (extractRegionRows f.1 f.2.1 resp).1)]
      simp

theorem weatherAllRecords_append
    (l1 l2 : List (Int × String × Except String WeatherApiResp)) :
    weatherAllRecords (l1 ++ l2) = weatherAllRecords l1 ++ weatherAllRecords l2 := by
  show (l1 ++ l2).foldl weatherStep [] = _
  rw [List.foldl_append, weatherAllRecords_go]
  rfl

theorem weatherAllRecords_cons_error (rid : Int) (name e : String)
    (rest : List (Int × String × Except String WeatherApiResp)) :
    weatherAllRecords ((rid, name, Except.error e) :: rest) = weatherAllRecords rest :=
  rfl

theorem weatherAllRecords_all_error :
    ∀ (fetches : List (Int × String × Except String WeatherApiResp)),
      (∀ f ∈ fetches, ∃ msg, f.2.2 = Except.error msg) →
      weatherAllRecords fetches = [] := by
  intro fetches
  induction fetches with
  | nil => intro _; rfl
  | cons f rest ih =>
    intro h
    obtain ⟨msg, hf⟩ := h f (List.mem_cons_self f rest)
    simp only [weatherAllRecords, List.foldl_cons]
    rw [weatherStep_error msg hf []]
    exact ih (fun g hg => h g (List.mem_cons_of_mem _ hg))

/-! ## Claim theorems -/

/-- C1: Idempotent ingestion upload.  For every fixed fetch result (the
validated row batch `rs`), running the upsert phase twice over the store
leaves the store in the same state as running it once; no duplicate rows
are created under the `(datetime, region_id)` key; and every stored row
whose key occurs in the batch carries the latest value written for that
key. -/
theorem c1_idempotent_upsert (store rs : List CarbonRow) :
    (uploadBatches carbonKey allOk (uploadBatches carbonKey allOk store rs).1 rs).1
      = (uploadBatches carbonKey allOk store rs).1
    ∧ ((store.map carbonKey).Nodup →
        (((uploadBatches carbonKey allOk store rs).1).map carbonKey).Nodup)
    ∧ (∀ x ∈ (uploadBatches carbonKey allOk store rs).1, ∀ v,
        lastWith carbonKey rs (carbonKey x) = some v → x = v) := by
  rw [uploadBatches_allOk, uploadBatches_allOk]
  exact ⟨upsertRows_idem carbonKey store rs,
    fun h => upsertRows_nodup carbonKey rs h,
    fun x hx v hv => upsertRows_latest carbonKey hx hv⟩

/-- Witness for C1 at a concrete store and fetch result: an empty store,
one fresh row and one refreshed row under the same key. -/
theorem c1_idempotent_upsert_witness :
    (([] : List CarbonRow).map carbonKey).Nodup
    ∧ (uploadBatches carbonKey allOk
        (uploadBatches carbonKey allOk []
          [⟨"2025-10-12T11:30:00", some 1, some "North Scotland", some 100, some "low", []⟩,
           ⟨"2025-10-12T11:30:00", some 1, some "North Scotland", some 120, some "low", []⟩]).1
        [⟨"2025-10-12T11:30:00", some 1, some "North Scotland", some 100, some "low", []⟩,
         ⟨"2025-10-12T11:30:00", some 1, some "North Scotland", some 120, some "low", []⟩]).1
      = (uploadBatches carbonKey allOk []
          [⟨"2025-10-12T11:30:00", some 1, some "North Scotland", some 100, some "low", []⟩,
           ⟨"2025-10-12T11:30:00", some 1, some "North Scotland", some 120, some "low", []⟩]).1
    ∧ (((uploadBatches carbonKey allOk []
          [⟨"2025-10-12T11:30:00", some 1, some "North Scotland", some 100, some "low", []⟩,
           ⟨"2025-10-12T11:30:00", some 1, some "North Scotland", some 120, some "low", []⟩]).1).map carbonKey).Nodup := by
  have h := c1_idempotent_upsert []
    [⟨"2025-10-12T11:30:00", some 1, some "North Scotland", some 100, some "low", []⟩,
     ⟨"2025-10-12T11:30:00", some 1, some "North Scotland", some 120, some "low", []⟩]
  exact ⟨by decide, h.1, h.2.1 (by decide)⟩

/-- C2: Pagination completeness.  For every backing store whose ordered
response holds finitely many rows, the page loop requests pages of fixed
size 1000 until a short page, returning the concatenation of all pages:
exactly all rows, in the store's ascending order, using
`length / 1000 + 1` page requests. -/
theorem c2_pagination_completeness {α : Type} (le : α → α → Prop) (rows : List α)
    (hsorted : rows.Pairwise le) :
    (fetchAllPages rows).1 = rows
    ∧ (fetchAllPages rows).2 = rows.length / PAGE_SIZE + 1
    ∧ (fetchAllPages rows).1.Pairwise le := by
  rw [fetchAllPages_spec]
  exact ⟨rfl, rfl, hsorted⟩

/-- Witness for C2 at the spec's synthetic store: N = 3500 ordered rows
come back complete, in order, via 4 page requests. -/
theorem c2_pagination_completeness_witness :
    (List.range 3500).Pairwise (· ≤ ·)
    ∧ (fetchAllPages (List.range 3500)).1 = List.range 3500
    ∧ (fetchAllPages (List.range 3500)).2 = 4 := by
  have hs : (List.range 3500).Pairwise (· ≤ ·) :=
    (List.pairwise_lt_range 3500).imp (fun h => Nat.le_of_lt h)
  have h := c2_pagination_completeness (· ≤ ·) (List.range 3500) hs
  refine ⟨hs, h.1, ?_⟩
  rw [h.2.1, List.length_range]
  norm_num [PAGE_SIZE]

/-- C5: Upsert batch error policy.  Rows are written in batches of fixed
size 500 that partition the record list (all but the last full); every
batch is attempted regardless of earlier failures; a batch raising a
duplicate-key conflict is reported "already up to date" (not an error);
and the final store is the fold of exactly the applied batches over the
initial store: a failed batch is skipped, previously written batches are
never rolled back. -/
theorem c5_batch_error_policy (outcome : Nat → BatchOutcome)
    (store records : List CarbonRow) :
    (chunks BATCH_SIZE records).flatten = records
    ∧ (∀ c ∈ chunks BATCH_SIZE records, c.length ≤ BATCH_SIZE ∧ c ≠ [])
    ∧ (∀ c ∈ (chunks BATCH_SIZE records).dropLast, c.length = BATCH_SIZE)
    ∧ ((uploadBatches carbonKey outcome store records).2).length
        = (chunks BATCH_SIZE records).length
    ∧ (∀ (s b : List CarbonRow) (msg : String), isDuplicateMsg msg = true →
        runBatch carbonKey (.raised msg) s b = (s, .alreadyUpToDate))
    ∧ reportIsError .alreadyUpToDate = false
    ∧ (uploadBatches carbonKey outcome store records).1
        = (selectApplied outcome (chunks BATCH_SIZE records) 0).foldl
            (fun t c => upsertRows carbonKey t c) store := by
  refine ⟨chunks_flatten (by decide) records,
    fun c hc => chunksFuel_mem_bounds (by decide) records.length records (Nat.le_refl _) c hc,
    fun c hc => chunksFuel_dropLast_full (by decide) records.length records (Nat.le_refl _) c hc,
    runBatches_reports_length carbonKey outcome _ store 0,
    ?_, rfl, runBatches_store carbonKey outcome _ store 0⟩
  intro s b msg hm
  simp [runBatch, hm]

/-- Witness for C5: a Postgres unique-violation message is classified as
"already up to date" and leaves the store untouched. -/
theorem c5_batch_error_policy_witness :
    isDuplicateMsg "ERROR 23505: could not upsert" = true
    ∧ runBatch carbonKey (BatchOutcome.raised "ERROR 23505: could not upsert")
        [] [⟨"2025-10-12T11:30:00", some 1, some "North Scotland", some 100, some "low", []⟩]
      = ([], BatchReport.alreadyUpToDate)
    ∧ reportIsError BatchReport.alreadyUpToDate = false := by
  have h := c5_batch_error_policy allOk []
    [⟨"2025-10-12T11:30:00", some 1, some "North Scotland", some 100, some "low", []⟩]
  exact ⟨by decide,
    h.2.2.2.2.1 [] [⟨"2025-10-12T11:30:00", some 1, some "North Scotland", some 100, some "low", []⟩]
      "ERROR 23505: could not upsert" (by decide),
    h.2.2.2.2.2.1⟩

/-- C3 counterexample: the claim says the resolver falls back to the
single-day today range whenever any one of the three tables is empty or
unreadable.  With the carbon table unavailable but demand and weather
present, the code instead intersects the two available tables: on
`today = 100`, demand `(0, 10)`, carbon unavailable, weather `(5, 20)` it
returns `(5, 10)`, not `(100, 100)`. -/
theorem c3_counterexample :
    fetch_date_bounds 100 true (some (0, 10)) none (some (5, 20)) = (5, 10)
    ∧ fetch_date_bounds 100 true (some (0, 10)) none (some (5, 20)) ≠ (100, 100) := by
  decide

/-- C3 (amended): the resolver returns the intersection
`(max of available minima, min of available maxima)` over the tables that
are nonempty and readable; an unavailable table is simply excluded from
the computation.  The today fallback fires exactly when the client is
unconfigured, when all three tables are unavailable, or when the computed
interval is inverted.  When all three tables are present and the interval
is proper, the result is contained in every table's own range. -/
theorem c3_bounds_resolver (today : Nat) (d c w : Option (Nat × Nat)) :
    fetch_date_bounds today false d c w = (today, today)
    ∧ fetch_date_bounds today true none none none = (today, today)
    ∧ (∀ dl dh cl ch wl wh,
        d = some (dl, dh) → c = some (cl, ch) → w = some (wl, wh) →
        (max (max dl cl) wl ≤ min (min dh ch) wh →
          fetch_date_bounds today true d c w
            = (max (max dl cl) wl, min (min dh ch) wh)
          ∧ dl ≤ max (max dl cl) wl ∧ cl ≤ max (max dl cl) wl
          ∧ wl ≤ max (max dl cl) wl
          ∧ min (min dh ch) wh ≤ dh ∧ min (min dh ch) wh ≤ ch
          ∧ min (min dh ch) wh ≤ wh)
        ∧ (min (min dh ch) wh < max (max dl cl) wl →
          fetch_date_bounds today true d c w = (today, today)))
    ∧ (∀ dl dh wl wh, d = some (dl, dh) → c = none → w = some (wl, wh) →
        max dl wl ≤ min dh wh →
        fetch_date_bounds today true d c w = (max dl wl, min dh wh)) := by
  refine ⟨rfl, rfl, ?_, ?_⟩
  · intro dl dh cl ch wl wh hd hc hw
    subst hd
    subst hc
    subst hw
    have hstep : fetch_date_bounds today true (some (dl, dh)) (some (cl, ch)) (some (wl, wh))
        = if min (min dh ch) wh < max (max dl cl) wl then (today, today)
          else (max (max dl cl) wl, min (min dh ch) wh) := rfl
    constructor
    · intro hle
      refine ⟨?_, le_max_of_le_left (le_max_left dl cl),
        le_max_of_le_left (le_max_right dl cl), le_max_right _ wl,
        min_le_of_left_le (min_le_left dh ch),
        min_le_of_left_le (min_le_right dh ch), min_le_right _ wh⟩
      rw [hstep, if_neg (not_lt.mpr hle)]
    · intro hlt
      rw [hstep, if_pos hlt]
  · intro dl dh wl wh hd hc hw hle
    subst hd
    subst hc
    subst hw
    have hstep : fetch_date_bounds today true (some (dl, dh)) none (some (wl, wh))
        = if min dh wh < max dl wl then (today, today)
          else (max dl wl, min dh wh) := rfl
    rw [hstep, if_neg (not_lt.mpr hle)]

/-- Witness for C3 (amended) at the spec's bounds-intersection vector:
demand `[1, 31]`, carbon `[10, 36]`, weather `[5, 20]` resolve to
`[10, 20]`. -/
theorem c3_bounds_resolver_witness :
    fetch_date_bounds 999 true (some (1, 31)) (some (10, 36)) (some (5, 20))
      = (10, 20) := by
  have h := (c3_bounds_resolver 999 (some (1, 31)) (some (10, 36))
    (some (5, 20))).2.2.1 1 31 10 36 5 20 rfl rfl rfl
  have h2 := (h.1 (by decide)).1
  simpa using h2

/-- C8: Scheduler staleness gate.  `should_run_update` (modelled from the
spec, since the repository imports it without defining it) with
`hours_interval = 24` returns true exactly when at least 24 hours have
elapsed since the recorded last-update timestamp, or when no update has
run this process lifetime; and one due-check of the `app.py` gate
launches at most one background refresh, launching none once
`data_update_started` is set. -/
theorem c8_scheduler_gate (now t : Nat) (st : SchedState) (due : Bool) :
    should_run_update now none 24 = true
    ∧ (should_run_update now (some t) 24 = true ↔ t + 24 * 3600 ≤ now)
    ∧ (schedulerStep st due).2 ≤ 1
    ∧ ((schedulerStep st due).2 = 1 ↔ (st.started = false ∧ due = true))
    ∧ (schedulerStep ⟨true⟩ due).2 = 0 := by
  refine ⟨rfl, ?_, ?_, ?_, ?_⟩
  · simp only [should_run_update, decide_eq_true_eq]
    omega
  · cases st with
    | mk b =>
      cases b <;> cases due <;> simp [schedulerStep]
  · cases st with
    | mk b =>
      cases b <;> cases due <;> simp [schedulerStep]
  · cases due <;> simp [schedulerStep]

/-- Witness for C8: 200000 seconds now, 100000 seconds last update (more
than 24 hours apart) is due, and a not-yet-started state launches exactly
one refresh. -/
theorem c8_scheduler_gate_witness :
    should_run_update 200000 (some 100000) 24 = true
    ∧ (schedulerStep ⟨false⟩ true).2 = 1 := by
  have h := c8_scheduler_gate 200000 100000 ⟨false⟩ true
  exact ⟨h.2.1.mpr (by decide), h.2.2.2.1.mpr ⟨rfl, rfl⟩⟩

/-- C9 counterexample: the claim says two selections with the same region
names in different orders produce the same cache key.  The code passes
`tuple(effective_regions)` verbatim, so the permuted selection
`["South Wales", "London"]` of `["London", "South Wales"]` produces a
different key: the memoized entry is missed and a new store read occurs. -/
theorem c9_counterexample :
    (["London", "South Wales"] : List String).Perm ["South Wales", "London"]
    ∧ rangeCacheKey "carbon_intensity" 1 2 ["London", "South Wales"]
        ≠ rangeCacheKey "carbon_intensity" 1 2 ["South Wales", "London"] := by
  constructor
  · decide
  · decide

/-- C9 (amended): the cache key of the memoized range fetchers is
order-sensitive in the region selection: two calls within the
time-to-live hit the same memoized entry iff their region tuples are
equal as sequences; re-ordering the same region set yields a different
key and a fresh store read. -/
theorem c9_cache_key_order_sensitive (table : String) (s e : Nat)
    (r1 r2 : List String) :
    rangeCacheKey table s e r1 = rangeCacheKey table s e r2 ↔ r1 = r2 := by
  simp [rangeCacheKey, regionsTuple]

/-- Witness for C9 (amended): an identical selection in identical order
produces the identical key. -/
theorem c9_cache_key_order_sensitive_witness :
    rangeCacheKey "carbon_intensity" 1 2 ["London", "South Wales"]
      = rangeCacheKey "carbon_intensity" 1 2 ["London", "South Wales"] :=
  (c9_cache_key_order_sensitive "carbon_intensity" 1 2
    ["London", "South Wales"] ["London", "South Wales"]).mpr rfl

/-- C6: Carbon validation drop.  In carbon normalization, missing forecast
and index values are preserved as missing (unlike the `gen_<fuel>` columns,
whose missing percentages are zero-filled), and a fetched region record is
excluded from the upload batch exactly when it lacks both a usable
(present and nonzero) forecast and a usable (present) index; in
particular, a record with neither forecast nor index is excluded while a
record with only `index = "low"` is included. -/
theorem c6_carbon_validation_drop (d : ParsedDt) (p : CarbonPayload) (rg : RegionRec) :
    (carbonRecordOf d rg).forecast = rg.forecast
    ∧ (carbonRecordOf d rg).idx = rg.idx
    ∧ (carbonRecordOf d rg).gen
        = rg.generationmix.map (fun g => (normFuel g.fuel, g.perc.getD 0))
    ∧ carbonRowValid (carbonRecordOf d rg)
        = ((rg.forecast.isSome && !(rg.forecast = some 0)) || rg.idx.isSome)
    ∧ (∀ r ∈ carbonRecords d p, (r ∈ carbonValidRows d p ↔ carbonRowValid r = true))
    ∧ carbonRowValid (carbonRecordOf d
        ⟨some 1, some "North Scotland", none, none, []⟩) = false
    ∧ carbonRowValid (carbonRecordOf d
        ⟨some 1, some "North Scotland", none, some "low", []⟩) = true := by
  refine ⟨rfl, rfl, rfl, rfl, ?_, rfl, rfl⟩
  intro r hr
  constructor
  · intro hv
    exact (List.mem_filter.mp hv).2
  · intro hv
    exact List.mem_filter.mpr ⟨hr, hv⟩

/-- Witness for C6 on a concrete payload: the forecast-and-index-free
region record is excluded from the upload batch; the index-only record is
included. -/
theorem c6_carbon_validation_drop_witness :
    (carbonRecordOf ⟨2025, 10, 12, 11, 30, 0⟩ ⟨some 1, some "North Scotland", none, none, []⟩
        ∈ carbonRecords ⟨2025, 10, 12, 11, 30, 0⟩
          ⟨"2025-10-12T11:30Z",
            [⟨some 1, some "North Scotland", none, none, []⟩,
             ⟨some 2, some "South Scotland", none, some "low", []⟩]⟩)
    ∧ ¬ (carbonRecordOf ⟨2025, 10, 12, 11, 30, 0⟩ ⟨some 1, some "North Scotland", none, none, []⟩
        ∈ carbonValidRows ⟨2025, 10, 12, 11, 30, 0⟩
          ⟨"2025-10-12T11:30Z",
            [⟨some 1, some "North Scotland", none, none, []⟩,
             ⟨some 2, some "South Scotland", none, some "low", []⟩]⟩)
    ∧ (carbonRecordOf ⟨2025, 10, 12, 11, 30, 0⟩ ⟨some 2, some "South Scotland", none, some "low", []⟩
        ∈ carbonValidRows ⟨2025, 10, 12, 11, 30, 0⟩
          ⟨"2025-10-12T11:30Z",
            [⟨some 1, some "North Scotland", none, none, []⟩,
             ⟨some 2, some "South Scotland", none, some "low", []⟩]⟩) := by
  have h := c6_carbon_validation_drop ⟨2025, 10, 12, 11, 30, 0⟩
    ⟨"2025-10-12T11:30Z",
      [⟨some 1, some "North Scotland", none, none, []⟩,
       ⟨some 2, some "South Scotland", none, some "low", []⟩]⟩
    ⟨some 1, some "North Scotland", none, none, []⟩
  refine ⟨by decide, ?_, ?_⟩
  · intro hmem
    have hiff := h.2.2.2.2.1
      (carbonRecordOf ⟨2025, 10, 12, 11, 30, 0⟩ ⟨some 1, some "North Scotland", none, none, []⟩)
      (by decide)
    have hvalid := hiff.mp hmem
    rw [h.2.2.2.2.2.1] at hvalid
    cases hvalid
  · exact (h.2.2.2.2.1
      (carbonRecordOf ⟨2025, 10, 12, 11, 30, 0⟩ ⟨some 2, some "South Scotland", none, some "low", []⟩)
      (by decide)).mpr (by decide)

/-- C7 counterexample: the claim says every row written by any of the
three pipelines stores its datetime as an ISO-8601 string normalized by
the pipeline.  The demand pipeline stores the `pd.to_datetime` timestamp
object without any `strftime` normalization: the datetime value of a
normalized demand record is a timestamp, not a string. -/
theorem c7_counterexample :
    demandDatetimeVal
        [("SETTLEMENT_DATE", PyVal.pstr "2025-10-01T00:00:00"), ("ND", PyVal.pnum 300)]
      = some (PyVal.pstamp "2025-10-01T00:00:00")
    ∧ (PyVal.pstamp "2025-10-01T00:00:00").isStrVal = false := by
  constructor
  · decide
  · decide

/-- C7 (amended): the carbon and weather pipelines normalize every
uploaded row's datetime to the canonical 19-character
`YYYY-MM-DDTHH:MM:SS` ISO form with no timezone designator before the
write; the demand pipeline instead converts the settlement-date column
with `pd.to_datetime`, storing a timestamp value and performing no string
normalization before the write. -/
theorem c7_datetime_normalization (d : ParsedDt) (p : CarbonPayload)
    (recs : List WeatherRec) (v : PyVal) (s : String) :
    (∀ r ∈ carbonValidRows d p, isCanonIso r.datetime = true)
    ∧ (∀ rows, weatherNormalize recs = .ok rows →
        ∀ r ∈ rows, isCanonIso r.datetime = true)
    ∧ (pdToDatetimeVal v).isStrVal = false
    ∧ normalizeDemandRecord [("SETTLEMENT_DATE", PyVal.pstr s)]
        = [("datetime", PyVal.pstamp s)] := by
  refine ⟨carbonValidRows_canon d p, weatherNormalize_canon recs, ?_, ?_⟩
  · cases v <;> rfl
  · rfl

/-- Witness for C7 (amended) at a parsed carbon snapshot and a concrete
weather record list. -/
theorem c7_datetime_normalization_witness :
    isCanonIso (strftimeIso ⟨2025, 10, 12, 11, 30, 0⟩) = true
    ∧ (∀ r ∈ carbonValidRows ⟨2025, 10, 12, 11, 30, 0⟩
        ⟨"2025-10-12T11:30Z", [⟨some 1, some "North Scotland", some 100, some "low", []⟩]⟩,
        isCanonIso r.datetime = true)
    ∧ normalizeDemandRecord [("SETTLEMENT_DATE", PyVal.pstr "2025-10-01T00:00:00")]
        = [("datetime", PyVal.pstamp "2025-10-01T00:00:00")] := by
  have h := c7_datetime_normalization ⟨2025, 10, 12, 11, 30, 0⟩
    ⟨"2025-10-12T11:30Z", [⟨some 1, some "North Scotland", some 100, some "low", []⟩]⟩
    [] (PyVal.pstr "x") "2025-10-01T00:00:00"
  exact ⟨isCanonIso_strftimeIso ⟨2025, 10, 12, 11, 30, 0⟩, h.1, h.2.2.2⟩

/-- C10 counterexample: the claim says a fetch or parse error for one
region contributes no rows.  A response whose hourly value array is
shorter than its `time` array raises mid-extraction; the row appended
before the failure remains in `all_records`, so the failed region
contributes one row. -/
theorem c10_counterexample :
    (extractRegionRows 1 "North Scotland"
        ⟨["2025-10-01T00:00", "2025-10-01T01:00"], some [some 5], none, none, none, none⟩).2
      = true
    ∧ (extractRegionRows 1 "North Scotland"
        ⟨["2025-10-01T00:00", "2025-10-01T01:00"], some [some 5], none, none, none, none⟩).1
      = [⟨"2025-10-01T00:00", 1, "North Scotland", some 5, none, none, none, none⟩]
    ∧ weatherAllRecords [(1, "North Scotland",
        Except.ok ⟨["2025-10-01T00:00", "2025-10-01T01:00"], some [some 5], none, none, none, none⟩)]
      ≠ [] := by
  refine ⟨by decide, by decide, by decide⟩

/-- C10 (amended): per-region isolation inside the weather pipeline.  A
region whose API request fails contributes no rows and the run proceeds
exactly as if that region were absent, so records gathered from other
regions are still normalized and uploaded; a region whose extraction
raises mid-parse keeps the rows it appended before the failure; and only
when every region's request fails does the run end with nothing uploaded
and the store untouched. -/
theorem c10_weather_region_isolation
    (pre post fetches : List (Int × String × Except String WeatherApiResp))
    (rid : Int) (name e : String) (outcome : Nat → BatchOutcome) (st : DashState) :
    weatherAllRecords (pre ++ (rid, name, Except.error e) :: post)
      = weatherAllRecords (pre ++ post)
    ∧ weatherPipeline (.ok true) (pre ++ (rid, name, Except.error e) :: post) outcome st
        = weatherPipeline (.ok true) (pre ++ post) outcome st
    ∧ (∀ (rid2 : Int) (name2 : String) (resp : WeatherApiResp),
        weatherAllRecords [(rid2, name2, Except.ok resp)]
          = (extractRegionRows rid2 name2 resp).1)
    ∧ ((∀ f ∈ fetches, ∃ msg, f.2.2 = Except.error msg) →
        weatherPipeline (.ok true) fetches outcome st
          = .ok (st, ["No weather data fetched."])) := by
  have hrec : weatherAllRecords (pre ++ (rid, name, Except.error e) :: post)
      = weatherAllRecords (pre ++ post) := by
    rw [weatherAllRecords_append, weatherAllRecords_append,
      weatherAllRecords_cons_error]
  refine ⟨hrec, ?_, ?_, ?_⟩
  · show (match (Except.ok true : Except String Bool) with
      | .error e => Except.error (e, st)
      | .ok false => Except.ok (st, [])
      | .ok true => _) = _
    simp only [weatherPipeline, hrec]
  · intro rid2 name2 resp
    show [] ++ (extractRegionRows rid2 name2 resp).1 = (extractRegionRows rid2 name2 resp).1
    rw [List.nil_append]
  · intro hall
    have hempty : weatherAllRecords fetches = [] := weatherAllRecords_all_error fetches hall
    simp only [weatherPipeline, hempty]
    rfl

/-- Witness for C10: with the single region's request failing, the run
uploads nothing and leaves the store untouched. -/
theorem c10_weather_region_isolation_witness :
    weatherPipeline (.ok true) [(1, "North Scotland", Except.error "timeout")] allOk
        ⟨[], [], []⟩
      = .ok (⟨[], [], []⟩, ["No weather data fetched."]) := by
  have h := c10_weather_region_isolation [] [] [(1, "North Scotland", Except.error "timeout")]
    1 "North Scotland" "timeout" allOk ⟨[], [], []⟩
  exact h.2.2.2 (by
    intro f hf
    rcases List.mem_singleton.mp hf with rfl
    exact ⟨"timeout", rfl⟩)

/-- C4: Cross-pipeline error isolation.  Each pipeline run in
`_run_data_updates` sits under its own `try/except`: a raised exception is
caught and logged, never re-raised, so a failure of one of the three
pipelines never prevents the other two from running.  Errors at the
fetch stage are already caught inside the pipeline itself; an exception
that does escape a pipeline (such as the freshness gate's store query)
reaches only that pipeline's `except` arm, and the remaining pipelines
still run on the state reached so far. -/
theorem c4_error_isolation (p2 p3 : PipeRun) (st st' : DashState) (e msg : String)
    (fetch : Except String CarbonPayload) (outcome : Nat → BatchOutcome) :
    (∀ p1 : PipeRun, p1 st = .error (e, st') →
      runDataUpdates p1 p2 p3 st
        = ((tryPipe p3 (tryPipe p2 st').1).1,
            ("Background: Could not update data: " ++ e)
              :: ((tryPipe p2 st').2 ++ (tryPipe p3 (tryPipe p2 st').1).2)))
    ∧ carbonPipeline (.error e) fetch outcome st = .error (e, st)
    ∧ carbonPipeline (.ok true) (.error msg) outcome st
        = .ok (st, ["Could not fetch carbon data from API: " ++ msg])
    ∧ (runDataUpdates (carbonPipeline (.error e) fetch outcome) p2 p3 st).1
        = (tryPipe p3 (tryPipe p2 st).1).1 := by
  refine ⟨?_, rfl, rfl, ?_⟩
  · intro p1 h1
    simp [runDataUpdates, tryPipe, h1]
  · simp [runDataUpdates, tryPipe, carbonPipeline]

/-- Witness for C4: with the carbon gate raising and the demand pipeline
raising, the weather pipeline's write still reaches the final state, and
the run returns normally with all three attempted. -/
theorem c4_error_isolation_witness :
    (fun s => Except.error ("carbon gate boom", s) : PipeRun) ⟨[], [], []⟩
      = Except.error ("carbon gate boom", (⟨[], [], []⟩ : DashState))
    ∧ runDataUpdates (fun s => Except.error ("carbon gate boom", s))
        (fun s => Except.ok ({ s with
          weatherS := [⟨"2025-10-01T00:00:00", 1, "North Scotland", 5, 0, 0, 0, 0⟩] }, []))
        (fun s => Except.error ("demand boom", s)) ⟨[], [], []⟩
      = (⟨[], [⟨"2025-10-01T00:00:00", 1, "North Scotland", 5, 0, 0, 0, 0⟩], []⟩,
          ["Background: Could not update data: carbon gate boom",
           "Background: Could not update data: demand boom"]) := by
  have h := c4_error_isolation
    (fun s => Except.ok ({ s with
      weatherS := [⟨"2025-10-01T00:00:00", 1, "North Scotland", 5, 0, 0, 0, 0⟩] }, []))
    (fun s => Except.error ("demand boom", s)) ⟨[], [], []⟩ ⟨[], [], []⟩
    "carbon gate boom" "x" (.error "x") allOk
  refine ⟨rfl, ?_⟩
  have h2 := h.1 (fun s => Except.error ("carbon gate boom", s)) rfl
  rw [h2]
  rfl

end UkEnergy
